import Mathlib

/-!
Verification of the provider price normalization and aggregation layer of the
cloud-cost-explorer repository, shallowly embedded in Lean 4.

Prices are modelled as exact rationals (ℚ); nullable SQL/TypeScript values as
`Option`; the Prisma `groupBy`/`aggregate` calls as explicit grouping over the
row lists, with SQL aggregate semantics (aggregates over an empty group or over
only-NULL columns yield NULL, i.e. `none`); JavaScript's `||` default operator
as an explicit coalescing function; the stable JavaScript `Array.prototype.sort`
as Mathlib's stable `List.insertionSort`; `localeCompare` on names as the
lexicographic linear order on `String`.
-/

namespace CostExplorer

/-- The `Provider` enum of `src/prisma/schema.prisma`. -/
inductive Provider where
  | AWS
  | AZURE
  | GCP
deriving DecidableEq

/-- The `OS_Type` enum of `src/prisma/schema.prisma`. -/
inductive OSType where
  | LINUX
  | WINDOWS
  | OTHER
deriving DecidableEq

/-- The `Region` enum of `src/prisma/schema.prisma` (continent buckets). -/
inductive Region where
  | north_america
  | south_america
  | europe
  | asia
  | africa
  | oceania
  | antarctica
deriving DecidableEq

/-- The `Access_Tiers` enum of `src/prisma/schema.prisma`. -/
inductive AccessTier where
  | FREQUENT_ACCESS
  | OCCASIONAL_ACCESS
  | RARE_ACCESS
  | ARCHIVE
deriving DecidableEq

/-- A row of the `OnDemandVMPricing` table (a canonical `ComputeOffer`). -/
structure OnDemandVMPricing where
  vm_name : String
  provider_name : Provider
  virtual_cpu_count : Nat
  memory_gb : ℚ
  cpu_arch : String
  price_per_hour_usd : ℚ
  gpu_count : Nat
  gpu_name : Option String
  gpu_memory : ℚ
  os_type : OSType
  region : Region
deriving DecidableEq

/-- A row of the `StoragePricing` table (a canonical `StorageOffer`); the four
price components are independently nullable. -/
structure StoragePricing where
  provider_name : Provider
  service_name : String
  storage_class : String
  region : Region
  access_tier : AccessTier
  capacity_price : Option ℚ
  read_price : Option ℚ
  write_price : Option ℚ
  flat_item_price : Option ℚ
deriving DecidableEq

/-! ### List aggregation helpers (SQL aggregate semantics)

`listMin?` / `listMax?` / `listAvg?` return `none` on the empty list, exactly
as SQL `MIN` / `MAX` / `AVG` return `NULL` over an empty (or all-NULL) group.
-/

/-- SQL `MIN` over a list of rationals; `none` when the list is empty. -/
def listMin? : List ℚ → Option ℚ
  | [] => none
  | x :: xs =>
    match listMin? xs with
    | none => some x
    | some m => some (min x m)

/-- SQL `MAX` over a list of rationals; `none` when the list is empty. -/
def listMax? : List ℚ → Option ℚ
  | [] => none
  | x :: xs =>
    match listMax? xs with
    | none => some x
    | some m => some (max x m)

/-- SQL `AVG` over a list of rationals; `none` when the list is empty. -/
def listAvg? (l : List ℚ) : Option ℚ :=
  if l = [] then none else some (l.sum / l.length)

theorem listMin?_eq_none_iff {l : List ℚ} : listMin? l = none ↔ l = [] := by
  cases l with
  | nil => simp [listMin?]
  | cons x xs =>
    simp only [listMin?]
    cases listMin? xs <;> simp

theorem listMin?_mem {l : List ℚ} {m : ℚ} (h : listMin? l = some m) : m ∈ l := by
  induction l generalizing m with
  | nil => simp [listMin?] at h
  | cons x xs ih =>
    simp only [listMin?] at h
    cases hxs : listMin? xs with
    | none => rw [hxs] at h; simp at h; simp [h]
    | some m' =>
      rw [hxs] at h
      simp only [Option.some.injEq] at h
      rcases min_choice x m' with hc | hc
      · have hx : m = x := by rw [← h, hc]
        rw [hx]; exact List.mem_cons_self _ _
      · have hx : m = m' := by rw [← h, hc]
        exact List.mem_cons_of_mem _ (hx ▸ ih hxs)

theorem listMin?_le {l : List ℚ} {m : ℚ} (h : listMin? l = some m) :
    ∀ y ∈ l, m ≤ y := by
  induction l generalizing m with
  | nil => simp
  | cons x xs ih =>
    simp only [listMin?] at h
    cases hxs : listMin? xs with
    | none =>
      rw [hxs] at h
      simp only [Option.some.injEq] at h
      have hnil : xs = [] := listMin?_eq_none_iff.mp hxs
      subst hnil
      simp [← h]
    | some m' =>
      rw [hxs] at h
      simp only [Option.some.injEq] at h
      intro y hy
      rcases List.mem_cons.mp hy with hy | hy
      · rw [hy, ← h]; exact min_le_left _ _
      · calc m ≤ m' := h ▸ min_le_right _ _
          _ ≤ y := ih hxs y hy

theorem listMin?_eq_some_of {l : List ℚ} {m : ℚ} (hm : m ∈ l)
    (hle : ∀ y ∈ l, m ≤ y) : listMin? l = some m := by
  cases hmin : listMin? l with
  | none =>
    rw [listMin?_eq_none_iff.mp hmin] at hm
    simp at hm
  | some m' =>
    have h1 : m' ≤ m := listMin?_le hmin m hm
    have h2 : m ≤ m' := hle m' (listMin?_mem hmin)
    rw [le_antisymm h1 h2]

theorem listMax?_eq_none_iff {l : List ℚ} : listMax? l = none ↔ l = [] := by
  cases l with
  | nil => simp [listMax?]
  | cons x xs =>
    simp only [listMax?]
    cases listMax? xs <;> simp

theorem listMax?_mem {l : List ℚ} {m : ℚ} (h : listMax? l = some m) : m ∈ l := by
  induction l generalizing m with
  | nil => simp [listMax?] at h
  | cons x xs ih =>
    simp only [listMax?] at h
    cases hxs : listMax? xs with
    | none => rw [hxs] at h; simp at h; simp [h]
    | some m' =>
      rw [hxs] at h
      simp only [Option.some.injEq] at h
      rcases max_choice x m' with hc | hc
      · have hx : m = x := by rw [← h, hc]
        rw [hx]; exact List.mem_cons_self _ _
      · have hx : m = m' := by rw [← h, hc]
        exact List.mem_cons_of_mem _ (hx ▸ ih hxs)

theorem listMax?_ge {l : List ℚ} {m : ℚ} (h : listMax? l = some m) :
    ∀ y ∈ l, y ≤ m := by
  induction l generalizing m with
  | nil => simp
  | cons x xs ih =>
    simp only [listMax?] at h
    cases hxs : listMax? xs with
    | none =>
      rw [hxs] at h
      simp only [Option.some.injEq] at h
      have hnil : xs = [] := listMax?_eq_none_iff.mp hxs
      subst hnil
      simp [← h]
    | some m' =>
      rw [hxs] at h
      simp only [Option.some.injEq] at h
      intro y hy
      rcases List.mem_cons.mp hy with hy | hy
      · rw [hy, ← h]; exact le_max_left _ _
      · calc y ≤ m' := ih hxs y hy
          _ ≤ m := h ▸ le_max_right _ _

theorem listMax?_eq_some_of {l : List ℚ} {m : ℚ} (hm : m ∈ l)
    (hle : ∀ y ∈ l, y ≤ m) : listMax? l = some m := by
  cases hmax : listMax? l with
  | none =>
    rw [listMax?_eq_none_iff.mp hmax] at hm
    simp at hm
  | some m' =>
    have h1 : m ≤ m' := listMax?_ge hmax m hm
    have h2 : m' ≤ m := hle m' (listMax?_mem hmax)
    rw [le_antisymm h2 h1]

theorem listMin?_perm {l l' : List ℚ} (h : l.Perm l') :
    listMin? l = listMin? l' := by
  cases hl : listMin? l with
  | none =>
    rw [listMin?_eq_none_iff.mp hl] at h
    rw [listMin?_eq_none_iff.mpr h.symm.eq_nil]
  | some m =>
    exact (listMin?_eq_some_of (h.mem_iff.mp (listMin?_mem hl))
      (fun y hy => listMin?_le hl y (h.mem_iff.mpr hy))).symm

theorem listMax?_perm {l l' : List ℚ} (h : l.Perm l') :
    listMax? l = listMax? l' := by
  cases hl : listMax? l with
  | none =>
    rw [listMax?_eq_none_iff.mp hl] at h
    rw [listMax?_eq_none_iff.mpr h.symm.eq_nil]
  | some m =>
    exact (listMax?_eq_some_of (h.mem_iff.mp (listMax?_mem hl))
      (fun y hy => listMax?_ge hl y (h.mem_iff.mpr hy))).symm

theorem listAvg?_perm {l l' : List ℚ} (h : l.Perm l') :
    listAvg? l = listAvg? l' := by
  unfold listAvg?
  rcases eq_or_ne l [] with hl | hl
  · subst hl
    rw [h.symm.eq_nil]
  · have hl' : l' ≠ [] := fun hc => hl (by rw [hc] at h; exact h.eq_nil)
    simp [hl, hl', h.sum_eq, h.length_eq]

/-! ### The aggregator: `getProviderStats` (src/unnamed/part_010, lines 51-113)

The three Prisma `groupBy` calls are embedded as explicit grouping over the row
lists: one group per distinct key (`List.dedup` of the key column), with the
SQL aggregates over each group's rows.  The JavaScript `|| 0` coalescing of the
nullable aggregates in the final `map` is `Option.getD 0` (for a numeric value
`x`, `x || 0` equals `x` when `x ≠ 0` and `0` otherwise, which is `x` in every
case, so `getD 0` is exact).
-/

/-- The distinct providers occurring in a VM row list (the keys of the first
Prisma `groupBy` call of `getProviderStats`). -/
def providersOf (vms : List OnDemandVMPricing) : List Provider :=
  (vms.map (·.provider_name)).dedup

/-- The distinct providers occurring in a storage row list. -/
def storageProvidersOf (storage : List StoragePricing) : List Provider :=
  (storage.map (·.provider_name)).dedup

/-- The hourly prices of one provider's VM offers. -/
def vmPricesOf (vms : List OnDemandVMPricing) (p : Provider) : List ℚ :=
  (vms.filter (fun v => decide (v.provider_name = p))).map (·.price_per_hour_usd)

/-- The non-null capacity prices of one provider's storage offers (SQL `AVG`
ignores NULL, so these are the only values it sees). -/
def storageCapsOf (storage : List StoragePricing) (p : Provider) : List ℚ :=
  (storage.filter (fun s => decide (s.provider_name = p))).filterMap (·.capacity_price)

/-- Result shape of the VM `groupBy` call (`VMStatsResult` in the source). -/
structure VMStatsResult where
  provider_name : Provider
  count_id : Nat
  avg_price : Option ℚ
  min_price : Option ℚ
  max_price : Option ℚ
deriving DecidableEq

/-- Result shape of the storage `groupBy` call (`StorageStatsResult`). -/
structure StorageStatsResult where
  provider_name : Provider
  count_service : Nat
  avg_capacity : Option ℚ
deriving DecidableEq

/-- The first Prisma `groupBy` of `getProviderStats`: VM count/avg/min/max of
`price_per_hour_usd` per provider. -/
def vmGroupBy (vms : List OnDemandVMPricing) : List VMStatsResult :=
  (providersOf vms).map (fun p =>
    { provider_name := p
      count_id := (vms.filter (fun v => decide (v.provider_name = p))).length
      avg_price := listAvg? (vmPricesOf vms p)
      min_price := listMin? (vmPricesOf vms p)
      max_price := listMax? (vmPricesOf vms p) })

/-- The second Prisma `groupBy` of `getProviderStats`: storage service count
and average capacity price per provider.  `_count.service_name` counts the
non-null values of `service_name`, which is a non-nullable column, hence all
of the provider's rows; `_avg.capacity_price` ignores NULL components. -/
def storageGroupBy (storage : List StoragePricing) : List StorageStatsResult :=
  (storageProvidersOf storage).map (fun p =>
    { provider_name := p
      count_service := (storage.filter (fun s => decide (s.provider_name = p))).length
      avg_capacity := listAvg? (storageCapsOf storage p) })

/-- The third Prisma `groupBy` of `getProviderStats`: the distinct
(provider, region) pairs (their `_count` is never read downstream). -/
def regionGroupBy (vms : List OnDemandVMPricing) : List (Provider × Region) :=
  (vms.map (fun v => (v.provider_name, v.region))).dedup

/-- The `ProviderStats` DTO of the source (src/app/src/types). -/
structure ProviderStats where
  provider : Provider
  vm_count : Nat
  storage_services : Nat
  avg_vm_price : ℚ
  min_vm_price : ℚ
  max_vm_price : ℚ
  avg_storage_price : ℚ
  regions : List Region
deriving DecidableEq

/-- `getProviderStats` (src/unnamed/part_010, lines 51-113): one stats entry
per VM `groupBy` group, joined by `find` with the storage groups and by
`filter`/`map` with the region groups; nullable aggregates coalesced with
`|| 0`. -/
def getProviderStats (vms : List OnDemandVMPricing)
    (storage : List StoragePricing) : List ProviderStats :=
  (vmGroupBy vms).map (fun vm =>
    let storageOpt := (storageGroupBy storage).find?
      (fun s => decide (s.provider_name = vm.provider_name))
    let regions := ((regionGroupBy vms).filter
      (fun r => decide (r.1 = vm.provider_name))).map (·.2)
    { provider := vm.provider_name
      vm_count := vm.count_id
      storage_services := (storageOpt.map (·.count_service)).getD 0
      avg_vm_price := vm.avg_price.getD 0
      min_vm_price := vm.min_price.getD 0
      max_vm_price := vm.max_price.getD 0
      avg_storage_price := (storageOpt.bind (·.avg_capacity)).getD 0
      regions := regions })

/-- The stats entry `getProviderStats` builds for provider `p` (the composite
of the group construction and the final `map`). -/
def statFor (vms : List OnDemandVMPricing) (storage : List StoragePricing)
    (p : Provider) : ProviderStats :=
  let storageOpt := (storageGroupBy storage).find?
    (fun s => decide (s.provider_name = p))
  { provider := p
    vm_count := (vms.filter (fun v => decide (v.provider_name = p))).length
    storage_services := (storageOpt.map (·.count_service)).getD 0
    avg_vm_price := (listAvg? (vmPricesOf vms p)).getD 0
    min_vm_price := (listMin? (vmPricesOf vms p)).getD 0
    max_vm_price := (listMax? (vmPricesOf vms p)).getD 0
    avg_storage_price := (storageOpt.bind (·.avg_capacity)).getD 0
    regions := ((regionGroupBy vms).filter
      (fun r => decide (r.1 = p))).map (·.2) }

theorem getProviderStats_eq (vms : List OnDemandVMPricing)
    (storage : List StoragePricing) :
    getProviderStats vms storage = (providersOf vms).map (statFor vms storage) := by
  unfold getProviderStats vmGroupBy statFor
  rw [List.map_map]
  rfl

/-! ### `getVMComparison` and the storage comparison (src/unnamed/part_010) -/

/-- The `VMComparisonData` DTO of the source. -/
structure VMComparisonData where
  provider : Provider
  vm_name : String
  virtual_cpu_count : Nat
  memory_gb : ℚ
  price_per_hour_usd : ℚ
  region : Region
  os_type : OSType
deriving DecidableEq

/-- The field selection `getVMComparison` applies to each VM row. -/
def toVMComparisonData (v : OnDemandVMPricing) : VMComparisonData :=
  { provider := v.provider_name
    vm_name := v.vm_name
    virtual_cpu_count := v.virtual_cpu_count
    memory_gb := v.memory_gb
    price_per_hour_usd := v.price_per_hour_usd
    region := v.region
    os_type := v.os_type }

/-- Ascending order on the `price_per_hour_usd` column (the `orderBy` of
`getVMComparison`). -/
def vmPriceLe (a b : OnDemandVMPricing) : Prop :=
  a.price_per_hour_usd ≤ b.price_per_hour_usd

instance : DecidableRel vmPriceLe := fun a b => by unfold vmPriceLe; infer_instance

instance : IsTotal OnDemandVMPricing vmPriceLe :=
  ⟨fun a b => le_total a.price_per_hour_usd b.price_per_hour_usd⟩

instance : IsTrans OnDemandVMPricing vmPriceLe :=
  ⟨fun _ _ _ hab hbc => le_trans hab hbc⟩

/-- `getVMComparison` (src/unnamed/part_010, lines 115-157): optional
provider/region `in` filters, rows ordered by ascending hourly price, first
`limit` rows, projected to `VMComparisonData`. -/
def getVMComparison (vms : List OnDemandVMPricing)
    (providers : Option (List Provider)) (regions : Option (List Region))
    (limit : Nat) : List VMComparisonData :=
  let filtered := vms.filter (fun v =>
    (match providers with
     | none => true
     | some ps => ps.isEmpty || decide (v.provider_name ∈ ps)) &&
    (match regions with
     | none => true
     | some rs => rs.isEmpty || decide (v.region ∈ rs)))
  ((List.insertionSort vmPriceLe filtered).take limit).map toVMComparisonData

/-- The raw row shape `getStorageComparison` reads from the store
(`StorageQueryResult` in the source): the TypeScript types of `storage_class`
and `access_tier` there are `string | null`, so the embedding keeps raw
strings. -/
structure StorageQueryResult where
  provider_name : String
  service_name : String
  storage_class : Option String
  access_tier : Option String
  capacity_price : Option ℚ
  region : String
deriving DecidableEq

/-- The `StorageComparisonData` DTO as actually produced at runtime: the
`as AccessTier` / `as Provider` casts in the source are compile-time-only, so
the runtime values are the raw strings. -/
structure StorageComparisonData where
  provider : String
  service_name : String
  storage_class : String
  access_tier : String
  capacity_price : ℚ
  region : String
deriving DecidableEq

/-- JavaScript `s || d` for an optional string: the default replaces both
`null` and the (falsy) empty string. -/
def jsOrStr (o : Option String) (d : String) : String :=
  match o with
  | none => d
  | some s => if s = "" then d else s

/-- The per-row mapping of `getStorageComparison` (src/unnamed/part_010,
lines 193-200): `storage_class || "STANDARD"`,
`(access_tier as AccessTier) || "FREQUENT_ACCESS"`, `capacity_price || 0`. -/
def mapStorageRow (s : StorageQueryResult) : StorageComparisonData :=
  { provider := s.provider_name
    service_name := s.service_name
    storage_class := jsOrStr s.storage_class "STANDARD"
    access_tier := jsOrStr s.access_tier "FREQUENT_ACCESS"
    capacity_price := s.capacity_price.getD 0
    region := s.region }

/-- Ascending order on the `capacity_price` column. -/
def capPriceLe (a b : StorageQueryResult) : Prop :=
  a.capacity_price.getD 0 ≤ b.capacity_price.getD 0

instance : DecidableRel capPriceLe := fun a b => by unfold capPriceLe; infer_instance

instance : IsTotal StorageQueryResult capPriceLe :=
  ⟨fun a b => le_total (a.capacity_price.getD 0) (b.capacity_price.getD 0)⟩

instance : IsTrans StorageQueryResult capPriceLe :=
  ⟨fun _ _ _ hab hbc => le_trans hab hbc⟩

/-- The recognized access-tier spellings (the `Access_Tiers` enum). -/
def recognizedAccessTiers : List String :=
  ["FREQUENT_ACCESS", "OCCASIONAL_ACCESS", "RARE_ACCESS", "ARCHIVE"]

/-- `getStorageComparison` (src/unnamed/part_010, lines 159-201): rows with a
non-null `capacity_price`, optional provider/region filters, ordered by
ascending capacity price, first `limit` rows, mapped by `mapStorageRow`.
Total: no code path raises. -/
def getStorageComparison (rows : List StorageQueryResult)
    (providers : Option (List String)) (regions : Option (List String))
    (limit : Nat) : List StorageComparisonData :=
  let filtered := rows.filter (fun s =>
    s.capacity_price.isSome &&
    (match providers with
     | none => true
     | some ps => ps.isEmpty || decide (s.provider_name ∈ ps)) &&
    (match regions with
     | none => true
     | some rs => rs.isEmpty || decide (s.region ∈ rs)))
  ((List.insertionSort capPriceLe filtered).take limit).map mapStorageRow

/-! ### The stats REST routes

Both routes build a `where` clause from the query parameters and aggregate the
filtered rows; the claims quantify over every filter, so the embedding takes
the filter as an arbitrary predicate.  Each nullable SQL aggregate is
coalesced to `0` with `|| 0` in the JSON response.
-/

/-- One avg/min/max block of a stats response. -/
structure StatTriple where
  avg : ℚ
  min : ℚ
  max : ℚ
deriving DecidableEq

/-- The `_avg`/`_min`/`_max` aggregate of a value list, with each NULL result
coalesced to `0` as in the route handlers. -/
def aggTriple (l : List ℚ) : StatTriple :=
  { avg := (listAvg? l).getD 0
    min := (listMin? l).getD 0
    max := (listMax? l).getD 0 }

/-- Response shape of `GET /api/virtual-machines/stats`. -/
structure VMStatsResponse where
  totalCount : Nat
  priceStats : StatTriple
  cpuStats : StatTriple
  memoryStats : StatTriple
deriving DecidableEq

/-- `GET` of src/app/src/app/api/virtual-machines/stats/route.ts: count and
price/cpu/memory aggregates over the rows matching the filter. -/
def vmStatsGET (rows : List OnDemandVMPricing)
    (flt : OnDemandVMPricing → Bool) : VMStatsResponse :=
  let matched := rows.filter flt
  { totalCount := matched.length
    priceStats := aggTriple (matched.map (·.price_per_hour_usd))
    cpuStats := aggTriple (matched.map (fun v => (v.virtual_cpu_count : ℚ)))
    memoryStats := aggTriple (matched.map (·.memory_gb)) }

/-- Response shape of `GET /api/storage/stats`. -/
structure StorageStatsResponse where
  totalCount : Nat
  capacityPriceStats : StatTriple
  readPriceStats : StatTriple
  writePriceStats : StatTriple
deriving DecidableEq

/-- `GET` of src/app/src/app/api/storage/stats/route.ts: total count over the
matching rows and, for each price component, aggregates restricted to the
rows where that component is non-null. -/
def storageStatsGET (rows : List StoragePricing)
    (flt : StoragePricing → Bool) : StorageStatsResponse :=
  let matched := rows.filter flt
  { totalCount := matched.length
    capacityPriceStats := aggTriple (matched.filterMap (·.capacity_price))
    readPriceStats := aggTriple (matched.filterMap (·.read_price))
    writePriceStats := aggTriple (matched.filterMap (·.write_price)) }

/-! ### Dashboard best-value selections

`best-value-matrix.tsx` sorts a copy of `vmData` with the category comparator
and a secondary `vm_name.localeCompare` tie-break and takes the first element.
JavaScript's `Array.prototype.sort` is stable, and a stable sort w.r.t. a
total preorder is uniquely determined, so the stable `List.insertionSort` over
the comparator's `≤ 0` relation is an exact model; `localeCompare` is modelled
as the lexicographic order on `String`.
-/

/-- The lowest-cost comparator of `findBestValue` in best-value-matrix.tsx:
`a.price_per_hour_usd - b.price_per_hour_usd`, ties broken by
`a.vm_name.localeCompare(b.vm_name)`; this relation is its `≤ 0` half. -/
def matrixLe (a b : VMComparisonData) : Prop :=
  a.price_per_hour_usd < b.price_per_hour_usd ∨
    (a.price_per_hour_usd = b.price_per_hour_usd ∧ a.vm_name ≤ b.vm_name)

instance : DecidableRel matrixLe := fun a b => by unfold matrixLe; infer_instance

instance : IsTotal VMComparisonData matrixLe := by
  constructor
  intro a b
  unfold matrixLe
  rcases lt_trichotomy a.price_per_hour_usd b.price_per_hour_usd with h | h | h
  · exact Or.inl (Or.inl h)
  · rcases le_total a.vm_name b.vm_name with hn | hn
    · exact Or.inl (Or.inr ⟨h, hn⟩)
    · exact Or.inr (Or.inr ⟨h.symm, hn⟩)
  · exact Or.inr (Or.inl h)

instance : IsTrans VMComparisonData matrixLe := by
  constructor
  intro a b c hab hbc
  unfold matrixLe at hab hbc ⊢
  rcases hab with hab | ⟨hab, han⟩
  · rcases hbc with hbc | ⟨hbc, _⟩
    · exact Or.inl (hab.trans hbc)
    · exact Or.inl (hbc ▸ hab)
  · rcases hbc with hbc | ⟨hbc, hbn⟩
    · exact Or.inl (hab ▸ hbc)
    · exact Or.inr ⟨hab.trans hbc, han.trans hbn⟩

/-- The `Lowest Cost` category of `findBestValue` (best-value-matrix.tsx,
lines 39-62): first element of the stably sorted copy of `vmData`. -/
def findBestValueLowestCost (vmData : List VMComparisonData) :
    Option VMComparisonData :=
  (List.insertionSort matrixLe vmData).head?

/-- The string shown for a provider (`localeCompare` sort key in
comparison-overview.tsx). -/
def providerName : Provider → String
  | Provider.AWS => "AWS"
  | Provider.AZURE => "AZURE"
  | Provider.GCP => "GCP"

/-- The provider-name sort of `ComparisonOverview`:
`a.provider.localeCompare(b.provider)`. -/
def overviewLe (a b : ProviderStats) : Prop :=
  providerName a.provider ≤ providerName b.provider

instance : DecidableRel overviewLe := fun a b => by unfold overviewLe; infer_instance

instance : IsTotal ProviderStats overviewLe :=
  ⟨fun a b => le_total (providerName a.provider) (providerName b.provider)⟩

instance : IsTrans ProviderStats overviewLe :=
  ⟨fun _ _ _ hab hbc => le_trans hab hbc⟩

/-- `bestProvider` of `ComparisonOverview` (comparison-overview.tsx, lines
26-31): the stats are sorted by provider name, `bestPrice` is
`Math.min(...sortedProviderStats.map(p => p.min_vm_price))` (guarded by the
length check), and the winner is the first sorted entry whose `min_vm_price`
equals `bestPrice`. -/
def overviewBestProvider (stats : List ProviderStats) : Option ProviderStats :=
  let sorted := List.insertionSort overviewLe stats
  let bestPrice : ℚ :=
    if sorted.isEmpty then 0
    else (listMin? (sorted.map (·.min_vm_price))).getD 0
  sorted.find? (fun p => decide (p.min_vm_price = bestPrice))

/-- `bestProvider` of `MainCostComparisonCard` (main-cost-comparison-card.tsx,
lines 33-41): `minAvgPrice` is `Math.min(...avgPrices)` and the winner is the
first entry, in the original order, whose `avg_vm_price` equals it (the
component early-returns on an empty stats list, so the `getD 0` branch is
never consulted there). -/
def mainCardBestProvider (stats : List ProviderStats) : Option ProviderStats :=
  let minAvgPrice : ℚ := (listMin? (stats.map (·.avg_vm_price))).getD 0
  stats.find? (fun p => decide (p.avg_vm_price = minAvgPrice))

/-- The minimum hourly price over a whole VM offer collection. -/
def globalMinPrice (vms : List OnDemandVMPricing) : ℚ :=
  (listMin? (vms.map (·.price_per_hour_usd))).getD 0

/-! ### Per-region rollup of `RegionalCostComparison`
(src/app/src/components/dashboard/regional-cost-comparison.tsx, lines 41-77):
a `reduce` grouping `vmData` by region, accumulating count, price sum,
`Math.min` from `Number.MAX_SAFE_INTEGER`, `Math.max` from `0`, and finally
`avgPrice = Number((sum / count).toFixed(6))`. -/

/-- `Number.MAX_SAFE_INTEGER`, the initial accumulator of the regional
minimum. -/
def maxSafeInteger : ℚ := 9007199254740991

/-- JavaScript's `toFixed(6)` conversion: round to six decimal digits. -/
def toFixed6 (q : ℚ) : ℚ := (round (q * 1000000) : ℤ) / 1000000

/-- The hourly prices of one region's offers in `vmData`. -/
def regionPricesOf (vmData : List VMComparisonData) (r : Region) : List ℚ :=
  (vmData.filter (fun v => decide (v.region = r))).map (·.price_per_hour_usd)

/-- `vmCount` of a region's accumulator. -/
def regionVMCount (vmData : List VMComparisonData) (r : Region) : Nat :=
  (regionPricesOf vmData r).length

/-- `minPrice` of a region's accumulator. -/
def regionMinPrice (vmData : List VMComparisonData) (r : Region) : ℚ :=
  (regionPricesOf vmData r).foldl min maxSafeInteger

/-- `maxPrice` of a region's accumulator. -/
def regionMaxPrice (vmData : List VMComparisonData) (r : Region) : ℚ :=
  (regionPricesOf vmData r).foldl max 0

/-- `avgPrice` of a region after the final division and `toFixed(6)`. -/
def regionAvgPrice (vmData : List VMComparisonData) (r : Region) : ℚ :=
  toFixed6 ((regionPricesOf vmData r).sum / (regionVMCount vmData r : ℚ))

/-! ### The ingestion-side normalizer (modelled from the spec)

The offline ingestion pipeline that populates the store is not part of the
repository sources under src/ (only its Dockerfile and README are), so the
row normalizer is modelled from the spec: one raw provider row plus provider
tag in, a canonical offer out, or a `ValidationError` naming the offending
field; fail closed on unrecognized enum spellings and failed range checks
(e.g. a negative price), uphold the data-model invariant that the GPU fields
are zero/absent together. -/

/-- Modelled from the spec: the error a normalizer raises when a raw field
cannot be mapped to a recognized enum value or fails a type/range check. -/
inductive ValidationError where
  | invalidField : String → ValidationError
deriving DecidableEq

/-- Modelled from the spec: recognized provider spellings. -/
def parseProvider : String → Option Provider
  | "AWS" => some Provider.AWS
  | "AZURE" => some Provider.AZURE
  | "GCP" => some Provider.GCP
  | _ => none

/-- Modelled from the spec: recognized OS-family spellings. -/
def parseOSType : String → Option OSType
  | "LINUX" => some OSType.LINUX
  | "WINDOWS" => some OSType.WINDOWS
  | "OTHER" => some OSType.OTHER
  | _ => none

/-- Modelled from the spec: recognized region-bucket spellings. -/
def parseRegion : String → Option Region
  | "north_america" => some Region.north_america
  | "south_america" => some Region.south_america
  | "europe" => some Region.europe
  | "asia" => some Region.asia
  | "africa" => some Region.africa
  | "oceania" => some Region.oceania
  | "antarctica" => some Region.antarctica
  | _ => none

/-- A raw compute pricing row as delivered by an ingestion adapter. -/
structure RawComputeRow where
  vm_name : String
  provider_name : String
  virtual_cpu_count : Int
  memory_gb : ℚ
  cpu_arch : String
  price_per_hour_usd : ℚ
  gpu_count : Int
  gpu_name : Option String
  gpu_memory : ℚ
  os_type : String
  region : String
deriving DecidableEq

/-- The `ComputeOffer` data-model invariant: the hourly price is non-negative
and the GPU fields are zero/absent together (`gpu_count` is `0` exactly when
`gpu_name` is absent and `gpu_memory` is `0`). -/
def computeInvariant (o : OnDemandVMPricing) : Prop :=
  0 ≤ o.price_per_hour_usd ∧
    (o.gpu_count = 0 ↔ (o.gpu_name = none ∧ o.gpu_memory = 0))

/-- Modelled from the spec: the compute-row normalizer, absent from src/.
It maps provider-specific spellings onto the shared enums, fails closed with
a `ValidationError` naming the offending field on an unrecognized value or a
failed range check, and rejects rows whose GPU fields are not zero/absent
together. -/
def normalizeComputeRow (row : RawComputeRow) :
    Except ValidationError OnDemandVMPricing :=
  match parseProvider row.provider_name with
  | none => Except.error (ValidationError.invalidField "provider_name")
  | some prov =>
    match parseOSType row.os_type with
    | none => Except.error (ValidationError.invalidField "os_type")
    | some os =>
      match parseRegion row.region with
      | none => Except.error (ValidationError.invalidField "region")
      | some reg =>
        if row.virtual_cpu_count ≤ 0 then
          Except.error (ValidationError.invalidField "virtual_cpu_count")
        else if row.memory_gb ≤ 0 then
          Except.error (ValidationError.invalidField "memory_gb")
        else if row.price_per_hour_usd < 0 then
          Except.error (ValidationError.invalidField "price_per_hour_usd")
        else if row.gpu_count < 0 then
          Except.error (ValidationError.invalidField "gpu_count")
        else if ¬ (row.gpu_count = 0 ↔ (row.gpu_name = none ∧ row.gpu_memory = 0)) then
          Except.error (ValidationError.invalidField "gpu_count")
        else
          Except.ok
            { vm_name := row.vm_name
              provider_name := prov
              virtual_cpu_count := row.virtual_cpu_count.toNat
              memory_gb := row.memory_gb
              cpu_arch := row.cpu_arch
              price_per_hour_usd := row.price_per_hour_usd
              gpu_count := row.gpu_count.toNat
              gpu_name := row.gpu_name
              gpu_memory := row.gpu_memory
              os_type := os
              region := reg }

/-! ### Concrete inputs used by the witness and counterexample theorems -/

/-- A GPU-less Linux VM offer with the given name, provider, price and
region. -/
def mkVM (name : String) (p : Provider) (price : ℚ) (r : Region) :
    OnDemandVMPricing :=
  { vm_name := name
    provider_name := p
    virtual_cpu_count := 2
    memory_gb := 4
    cpu_arch := "x86_64"
    price_per_hour_usd := price
    gpu_count := 0
    gpu_name := none
    gpu_memory := 0
    os_type := OSType.LINUX
    region := r }

/-- The spec's worked aggregation example:
`[{AWS,$0.10},{AWS,$0.30},{AZURE,$0.20}]`. -/
def specExampleOffers : List OnDemandVMPricing :=
  [mkVM "aws-small" Provider.AWS (1/10) Region.north_america,
   mkVM "aws-large" Provider.AWS (3/10) Region.europe,
   mkVM "azure-mid" Provider.AZURE (1/5) Region.europe]

/-- An offer collection on which the lowest-min-price provider (AWS) differs
from the lowest-average-price provider (AZURE). -/
def divergenceOffers : List OnDemandVMPricing :=
  [mkVM "a" Provider.AWS (1/10) Region.north_america,
   mkVM "b" Provider.AWS (9/10) Region.north_america,
   mkVM "c" Provider.AZURE (1/5) Region.europe,
   mkVM "d" Provider.AZURE (1/5) Region.europe]

/-- Two offers tied on the lowest price with distinct names, plus a more
expensive one. -/
def tieOffers : List VMComparisonData :=
  [toVMComparisonData (mkVM "beta" Provider.AWS (1/10) Region.europe),
   toVMComparisonData (mkVM "alpha" Provider.AZURE (1/10) Region.asia),
   toVMComparisonData (mkVM "gamma" Provider.GCP (1/5) Region.asia)]

/-- A raw storage row with the given access-tier string. -/
def rawTierRow (tier : Option String) : StorageQueryResult :=
  { provider_name := "AWS"
    service_name := "S3"
    storage_class := some "STANDARD"
    access_tier := tier
    capacity_price := some (23/1000)
    region := "north_america" }

/-- A GCP storage row (a provider with storage offers but no VM offers in the
witness snapshot). -/
def storageRowGCP : StoragePricing :=
  { provider_name := Provider.GCP
    service_name := "GCS"
    storage_class := "STANDARD"
    region := Region.europe
    access_tier := AccessTier.FREQUENT_ACCESS
    capacity_price := some (1/50)
    read_price := none
    write_price := none
    flat_item_price := none }

/-- An AWS storage row with the given capacity price component. -/
def storageRowAWS (cap : Option ℚ) : StoragePricing :=
  { provider_name := Provider.AWS
    service_name := "S3"
    storage_class := "STANDARD"
    region := Region.north_america
    access_tier := AccessTier.FREQUENT_ACCESS
    capacity_price := cap
    read_price := none
    write_price := none
    flat_item_price := none }

/-- A valid raw compute row accepted by the modelled normalizer. -/
def rawComputeExample : RawComputeRow :=
  { vm_name := "m5.large"
    provider_name := "AWS"
    virtual_cpu_count := 2
    memory_gb := 8
    cpu_arch := "x86_64"
    price_per_hour_usd := 3
    gpu_count := 0
    gpu_name := none
    gpu_memory := 0
    os_type := "LINUX"
    region := "north_america" }

/-- The canonical offer the modelled normalizer produces from
`rawComputeExample`. -/
def normalizedExample : OnDemandVMPricing :=
  { vm_name := "m5.large"
    provider_name := Provider.AWS
    virtual_cpu_count := 2
    memory_gb := 8
    cpu_arch := "x86_64"
    price_per_hour_usd := 3
    gpu_count := 0
    gpu_name := none
    gpu_memory := 0
    os_type := OSType.LINUX
    region := Region.north_america }

/-! ### Shared helper lemmas -/

instance : RightCommutative (min : ℚ → ℚ → ℚ) :=
  ⟨fun b a₁ a₂ => min_right_comm b a₁ a₂⟩

instance : RightCommutative (max : ℚ → ℚ → ℚ) :=
  ⟨fun b a₁ a₂ => by rw [max_assoc, max_comm a₁ a₂, ← max_assoc]⟩

theorem mem_providersOf {vms : List OnDemandVMPricing} {p : Provider} :
    p ∈ providersOf vms ↔ ∃ v ∈ vms, v.provider_name = p := by
  simp [providersOf, List.mem_dedup]

theorem mem_vmPricesOf {vms : List OnDemandVMPricing} {p : Provider} {q : ℚ} :
    q ∈ vmPricesOf vms p ↔
      ∃ v ∈ vms, v.provider_name = p ∧ v.price_per_hour_usd = q := by
  simp only [vmPricesOf, List.mem_map, List.mem_filter, decide_eq_true_eq]
  constructor
  · rintro ⟨v, ⟨hv, hp⟩, hq⟩
    exact ⟨v, hv, hp, hq⟩
  · rintro ⟨v, hv, hp, hq⟩
    exact ⟨v, ⟨hv, hp⟩, hq⟩

theorem vmPricesOf_ne_nil {vms : List OnDemandVMPricing} {p : Provider}
    (hp : p ∈ providersOf vms) : vmPricesOf vms p ≠ [] := by
  rcases mem_providersOf.mp hp with ⟨v, hv, hvp⟩
  intro hnil
  have : v.price_per_hour_usd ∈ vmPricesOf vms p :=
    mem_vmPricesOf.mpr ⟨v, hv, hvp, rfl⟩
  rw [hnil] at this
  simp at this

theorem vmPricesOf_subset_prices {vms : List OnDemandVMPricing} {p : Provider}
    {q : ℚ} (hq : q ∈ vmPricesOf vms p) :
    q ∈ vms.map (·.price_per_hour_usd) := by
  rcases mem_vmPricesOf.mp hq with ⟨v, hv, _, hvq⟩
  exact List.mem_map.mpr ⟨v, hv, hvq⟩

theorem mem_storageCapsOf {storage : List StoragePricing} {p : Provider} {q : ℚ} :
    q ∈ storageCapsOf storage p ↔
      ∃ s ∈ storage, s.provider_name = p ∧ s.capacity_price = some q := by
  simp only [storageCapsOf, List.mem_filterMap, List.mem_filter, decide_eq_true_eq]
  constructor
  · rintro ⟨s, ⟨hs, hp⟩, hq⟩
    exact ⟨s, hs, hp, hq⟩
  · rintro ⟨s, hs, hp, hq⟩
    exact ⟨s, ⟨hs, hp⟩, hq⟩

/-- `find?` with an equality-on-key predicate over a list of records built by
mapping a key list: if the key occurs, the record built from it is found. -/
theorem find?_map_key {α β : Type} [DecidableEq α] (f : α → β) (k : β → α)
    (hk : ∀ a, k (f a) = a) {l : List α} {p : α}
    (hp : p ∈ l) :
    (l.map f).find? (fun b => decide (k b = p)) = some (f p) := by
  induction l with
  | nil => simp at hp
  | cons a as ih =>
    by_cases hap : a = p
    · subst hap
      rw [List.map_cons, List.find?_cons_of_pos _ (by simp [hk])]
    · have hmem : p ∈ as := by
        rcases List.mem_cons.mp hp with h | h
        · exact absurd h.symm hap
        · exact h
      rw [List.map_cons, List.find?_cons_of_neg _ (by simp [hk, hap])]
      exact ih hmem

theorem storageGroupBy_find?_of_mem {storage : List StoragePricing}
    {p : Provider} (hp : p ∈ storageProvidersOf storage) :
    (storageGroupBy storage).find? (fun s => decide (s.provider_name = p)) =
      some { provider_name := p
             count_service :=
               (storage.filter (fun s => decide (s.provider_name = p))).length
             avg_capacity := listAvg? (storageCapsOf storage p) } := by
  unfold storageGroupBy
  exact find?_map_key _ (fun s : StorageStatsResult => s.provider_name)
    (fun _ => rfl) hp

theorem storageGroupBy_find?_of_not_mem {storage : List StoragePricing}
    {p : Provider} (hp : p ∉ storageProvidersOf storage) :
    (storageGroupBy storage).find? (fun s => decide (s.provider_name = p)) =
      none := by
  rw [List.find?_eq_none]
  intro s hs
  rcases List.mem_map.mp hs with ⟨q, hq, hqs⟩
  simp only [← hqs, decide_eq_true_eq]
  intro hqp
  exact hp (hqp ▸ hq)

theorem mem_getProviderStats {vms : List OnDemandVMPricing}
    {storage : List StoragePricing} {e : ProviderStats} :
    e ∈ getProviderStats vms storage ↔
      ∃ p ∈ providersOf vms, statFor vms storage p = e := by
  rw [getProviderStats_eq]
  exact List.mem_map

/-- The head of a stable sort is below every list element, for a reflexive
total transitive comparator. -/
theorem head_insertionSort_le {α : Type} (r : α → α → Prop) [DecidableRel r]
    [IsTotal α r] [IsTrans α r] (hrefl : ∀ a, r a a) {l : List α} {w : α}
    (hw : (List.insertionSort r l).head? = some w) :
    w ∈ l ∧ ∀ v ∈ l, r w v := by
  have hperm := List.perm_insertionSort r l
  have hsorted := List.sorted_insertionSort r l
  cases hs : List.insertionSort r l with
  | nil => rw [hs] at hw; simp at hw
  | cons x t =>
    rw [hs] at hw hperm hsorted
    simp only [List.head?_cons, Option.some.injEq] at hw
    subst hw
    constructor
    · exact hperm.mem_iff.mp (List.mem_cons_self _ _)
    · intro v hv
      rcases List.mem_cons.mp (hperm.mem_iff.mpr hv) with hvx | hvt
      · rw [hvx]; exact hrefl _
      · exact List.rel_of_sorted_cons hsorted v hvt

theorem matrixLe_refl (a : VMComparisonData) : matrixLe a a :=
  Or.inr ⟨rfl, le_refl _⟩

/-- Specification of the matrix's lowest-cost winner: it is an input offer
that is `matrixLe`-below every input offer. -/
theorem findBestValueLowestCost_spec {vmData : List VMComparisonData}
    (hne : vmData ≠ []) :
    ∃ w, findBestValueLowestCost vmData = some w ∧ w ∈ vmData ∧
      ∀ v ∈ vmData, matrixLe w v := by
  unfold findBestValueLowestCost
  cases hs : List.insertionSort matrixLe vmData with
  | nil =>
    have hv : vmData = [] := by
      have h := (List.perm_insertionSort matrixLe vmData).symm
      rw [hs] at h
      exact h.eq_nil
    exact absurd hv hne
  | cons x t =>
    refine ⟨x, by simp [hs], ?_⟩
    exact head_insertionSort_le matrixLe matrixLe_refl
      (show (List.insertionSort matrixLe vmData).head? = some x from
        by rw [hs]; rfl)

/-! ### Claim theorems -/

/-- C6: aggregating the empty offer collection yields the empty stats list
(and, the embedding being total, no thrown fault), whatever the storage
rows are. -/
theorem c6_empty_offers_empty_stats :
    ∀ storage : List StoragePricing, getProviderStats [] storage = [] :=
  fun _ => rfl

/-- C2 counterexample: `getStorageComparison` does not raise a
`ValidationError` on an unrecognized access-tier string — the unrecognized
string `"BOGUS"` is passed through unchanged — and a raw row with a null
access tier is silently given the default `FREQUENT_ACCESS`. -/
theorem c2_counterexample :
    (("BOGUS" ∈ recognizedAccessTiers) = False) ∧
    (getStorageComparison [rawTierRow (some "BOGUS")] none none 20).map
      (·.access_tier) = ["BOGUS"] ∧
    (getStorageComparison [rawTierRow none] none none 20).map
      (·.access_tier) = ["FREQUENT_ACCESS"] :=
  ⟨eq_false (by decide), rfl, rfl⟩

/-- C2 amended: normalization of raw storage rows performs no access-tier
validation and never raises: every returned record comes from an input row
via `mapStorageRow`, its access tier being the raw string itself when that is
non-null and non-empty (unrecognized spellings pass through unchanged), and
the silently substituted default `FREQUENT_ACCESS` when the raw value is null
or empty. -/
theorem c2_no_tier_validation (rows : List StorageQueryResult)
    (providers : Option (List String)) (regions : Option (List String))
    (limit : Nat) (out : StorageComparisonData)
    (hout : out ∈ getStorageComparison rows providers regions limit) :
    ∃ s ∈ rows, out = mapStorageRow s ∧
      out.access_tier = jsOrStr s.access_tier "FREQUENT_ACCESS" ∧
      (s.access_tier = none ∨ s.access_tier = some "" →
        out.access_tier = "FREQUENT_ACCESS") ∧
      (∀ t, s.access_tier = some t → t ≠ "" → out.access_tier = t) := by
  unfold getStorageComparison at hout
  rcases List.mem_map.mp hout with ⟨s, hs, hsout⟩
  have hs₁ : s ∈ List.insertionSort capPriceLe _ := List.take_subset _ _ hs
  have hs₂ : s ∈ rows :=
    List.mem_of_mem_filter ((List.perm_insertionSort capPriceLe _).mem_iff.mp hs₁)
  refine ⟨s, hs₂, hsout.symm, by rw [← hsout]; rfl, ?_, ?_⟩
  · rintro (hnone | hempty)
    · simp [← hsout, mapStorageRow, jsOrStr, hnone]
    · simp [← hsout, mapStorageRow, jsOrStr, hempty]
  · intro t ht hne
    simp [← hsout, mapStorageRow, jsOrStr, ht, hne]

/-- C2 witness: the amended theorem applied to a one-row collection whose
access tier is the unrecognized string `"BOGUS"`. -/
theorem c2_witness :
    ∃ s ∈ [rawTierRow (some "BOGUS")],
      mapStorageRow (rawTierRow (some "BOGUS")) = mapStorageRow s ∧
      (mapStorageRow (rawTierRow (some "BOGUS"))).access_tier =
        jsOrStr s.access_tier "FREQUENT_ACCESS" ∧
      (s.access_tier = none ∨ s.access_tier = some "" →
        (mapStorageRow (rawTierRow (some "BOGUS"))).access_tier =
          "FREQUENT_ACCESS") ∧
      (∀ t, s.access_tier = some t → t ≠ "" →
        (mapStorageRow (rawTierRow (some "BOGUS"))).access_tier = t) :=
  c2_no_tier_validation [rawTierRow (some "BOGUS")] none none 20
    (mapStorageRow (rawTierRow (some "BOGUS"))) (List.mem_cons_self _ _)

/-- C10: when the filter matches no rows, the VM stats route reports every
aggregate as `0` (NULL aggregates coalesced by `|| 0`) rather than null or an
error; and a nonempty match can produce the same `min = 0`, so a reported `0`
does not distinguish the two. -/
theorem c10_empty_filter_reports_zero :
    (∀ (rows : List OnDemandVMPricing) (flt : OnDemandVMPricing → Bool),
      rows.filter flt = [] →
        vmStatsGET rows flt =
          { totalCount := 0
            priceStats := ⟨0, 0, 0⟩
            cpuStats := ⟨0, 0, 0⟩
            memoryStats := ⟨0, 0, 0⟩ }) ∧
    (∃ (rows : List OnDemandVMPricing) (flt : OnDemandVMPricing → Bool),
      rows.filter flt ≠ [] ∧ (vmStatsGET rows flt).priceStats.min = 0) := by
  constructor
  · intro rows flt h
    unfold vmStatsGET
    rw [h]
    rfl
  · refine ⟨[mkVM "free-tier" Provider.AWS 0 Region.europe], fun _ => true,
      ?_, rfl⟩
    simp

/-- C10 witness: the theorem applied to the empty row collection. -/
theorem c10_witness :
    vmStatsGET ([] : List OnDemandVMPricing) (fun _ => true) =
      { totalCount := 0
        priceStats := ⟨0, 0, 0⟩
        cpuStats := ⟨0, 0, 0⟩
        memoryStats := ⟨0, 0, 0⟩ } :=
  c10_empty_filter_reports_zero.1 [] (fun _ => true) rfl

/-- C9: the stats list has exactly one entry per provider owning at least one
VM offer — the entry providers are exactly the distinct providers of the VM
rows, without duplicates — so a provider having storage rows but no VM rows
gets no entry (its storage count and average storage price are never
reported). -/
theorem c9_stats_entries_vm_providers (vms : List OnDemandVMPricing)
    (storage : List StoragePricing) :
    ((getProviderStats vms storage).map (·.provider)).Nodup ∧
    (∀ p : Provider,
      p ∈ (getProviderStats vms storage).map (·.provider) ↔
        ∃ v ∈ vms, v.provider_name = p) ∧
    (∀ p : Provider, (∀ v ∈ vms, v.provider_name ≠ p) →
      ∀ e ∈ getProviderStats vms storage, e.provider ≠ p) := by
  have hmap : (getProviderStats vms storage).map (·.provider) =
      providersOf vms := by
    rw [getProviderStats_eq, List.map_map]
    exact (List.map_id (providersOf vms) : _)
  have hmem_iff : ∀ p : Provider,
      p ∈ (getProviderStats vms storage).map (·.provider) ↔
        ∃ v ∈ vms, v.provider_name = p :=
    fun p => hmap ▸ mem_providersOf
  refine ⟨hmap ▸ List.nodup_dedup _, hmem_iff, ?_⟩
  intro p hnone e he hep
  rcases (hmem_iff p).mp (List.mem_map.mpr ⟨e, he, hep⟩) with ⟨v, hv, hvp⟩
  exact hnone v hv hvp

/-- A snapshot with a single AWS VM offer. -/
def vmsOnlyAWS : List OnDemandVMPricing :=
  [mkVM "aws1" Provider.AWS (1/10) Region.north_america]

/-- C9 witness: with one AWS VM row and one GCP storage row, the stats
entries are duplicate-free and GCP (which has storage but no VM offers)
receives no entry. -/
theorem c9_witness :
    ((getProviderStats vmsOnlyAWS [storageRowGCP]).map (·.provider)).Nodup ∧
    ((Provider.GCP ∈
        (getProviderStats vmsOnlyAWS [storageRowGCP]).map (·.provider)) =
      False) :=
  ⟨(c9_stats_entries_vm_providers vmsOnlyAWS [storageRowGCP]).1,
   eq_false (fun hmem => by
    rcases ((c9_stats_entries_vm_providers vmsOnlyAWS
        [storageRowGCP]).2.1 Provider.GCP).mp hmem with ⟨v, hv, hp⟩
    rcases List.mem_singleton.mp hv with rfl
    simp [mkVM] at hp)⟩

theorem storageCapsOf_eq_nil_of_not_mem {storage : List StoragePricing}
    {p : Provider} (hps : p ∉ storageProvidersOf storage) :
    storageCapsOf storage p = [] := by
  unfold storageCapsOf
  have hfil : storage.filter (fun s => decide (s.provider_name = p)) = [] := by
    rw [List.filter_eq_nil_iff]
    intro s hs
    simp only [decide_eq_true_eq]
    intro hsp
    exact hps
      (List.mem_dedup.mpr (List.mem_map.mpr ⟨s, hs, hsp⟩))
  rw [hfil]
  rfl

/-- The `avg_storage_price` a stats entry carries: the mean of the provider's
non-null capacity prices, or `0` when there are none. -/
theorem statFor_avg_storage (vms : List OnDemandVMPricing)
    (storage : List StoragePricing) (p : Provider) :
    (statFor vms storage p).avg_storage_price =
      if storageCapsOf storage p = [] then 0
      else (storageCapsOf storage p).sum / (storageCapsOf storage p).length := by
  have hproj : (statFor vms storage p).avg_storage_price =
      (((storageGroupBy storage).find?
          (fun s => decide (s.provider_name = p))).bind (·.avg_capacity)).getD 0 :=
    rfl
  by_cases hps : p ∈ storageProvidersOf storage
  · rw [hproj, storageGroupBy_find?_of_mem hps]
    show (listAvg? (storageCapsOf storage p)).getD 0 = _
    unfold listAvg?
    by_cases hnil : storageCapsOf storage p = []
    · rw [if_pos hnil, if_pos hnil]
      rfl
    · rw [if_neg hnil, if_neg hnil]
      rfl
  · rw [hproj, storageGroupBy_find?_of_not_mem hps,
      if_pos (storageCapsOf_eq_nil_of_not_mem hps)]
    rfl

/-- C5: a provider's reported average storage price is the arithmetic mean of
its offers' non-null capacity prices only (null components are ignored, not
counted as zero), and with zero non-null capacity prices it is reported as
`0` — likewise the storage stats route reports all-zero capacity aggregates
over an empty non-null set — never as a division fault. -/
theorem c5_storage_avg_ignores_null :
    (∀ (vms : List OnDemandVMPricing) (storage : List StoragePricing)
        (p : Provider), p ∈ providersOf vms →
      ∃ e ∈ getProviderStats vms storage, e.provider = p ∧
        (storageCapsOf storage p = [] → e.avg_storage_price = 0) ∧
        (storageCapsOf storage p ≠ [] →
          e.avg_storage_price * (storageCapsOf storage p).length =
            (storageCapsOf storage p).sum)) ∧
    (∀ (storage : List StoragePricing) (flt : StoragePricing → Bool),
      (storage.filter flt).filterMap (·.capacity_price) = [] →
        (storageStatsGET storage flt).capacityPriceStats = ⟨0, 0, 0⟩) := by
  constructor
  · intro vms storage p hp
    refine ⟨statFor vms storage p, mem_getProviderStats.mpr ⟨p, hp, rfl⟩, rfl,
      ?_, ?_⟩
    · intro hnil
      rw [statFor_avg_storage, if_pos hnil]
    · intro hne
      rw [statFor_avg_storage, if_neg hne]
      have hlen : ((storageCapsOf storage p).length : ℚ) ≠ 0 :=
        Nat.cast_ne_zero.mpr (fun h => hne (List.length_eq_zero.mp h))
      exact div_mul_cancel₀ _ hlen
  · intro storage flt h
    show aggTriple ((storage.filter flt).filterMap (·.capacity_price)) = _
    rw [h]
    rfl

/-- A storage snapshot in which AWS has one null and one non-null capacity
price. -/
def storageMixed : List StoragePricing :=
  [storageRowAWS none, storageRowAWS (some (1/50))]

/-- C5 witness: the theorem applied to a snapshot where AWS has a null and a
non-null capacity price, and to a one-row all-null collection for the stats
route. -/
theorem c5_witness :
    (∃ e ∈ getProviderStats vmsOnlyAWS storageMixed,
      e.provider = Provider.AWS ∧
      (storageCapsOf storageMixed Provider.AWS = [] →
        e.avg_storage_price = 0) ∧
      (storageCapsOf storageMixed Provider.AWS ≠ [] →
        e.avg_storage_price *
            (storageCapsOf storageMixed Provider.AWS).length =
          (storageCapsOf storageMixed Provider.AWS).sum)) ∧
    (storageStatsGET [storageRowAWS none] (fun _ => true)).capacityPriceStats =
      ⟨0, 0, 0⟩ :=
  ⟨c5_storage_avg_ignores_null.1 vmsOnlyAWS storageMixed Provider.AWS
    (by decide),
   c5_storage_avg_ignores_null.2 [storageRowAWS none] (fun _ => true) rfl⟩

/-- C1: for every provider present in the offer collection, the stats list
carries an entry with that provider's offer count, the minimum, maximum and
arithmetic mean of its hourly prices, and the duplicate-free set of its
region buckets; in particular on the spec's worked example
`[{AWS,$0.10},{AWS,$0.30},{AZURE,$0.20}]` the AWS entry has count 2,
min 0.10, max 0.30, avg 0.20 and the AZURE entry has count 1 and
min = max = avg = 0.20. -/
theorem c1_provider_stats_correct :
    (∀ (vms : List OnDemandVMPricing) (storage : List StoragePricing)
        (p : Provider), p ∈ providersOf vms →
      ∃ e ∈ getProviderStats vms storage, e.provider = p ∧
        e.vm_count = (vmPricesOf vms p).length ∧
        e.min_vm_price ∈ vmPricesOf vms p ∧
        (∀ q ∈ vmPricesOf vms p, e.min_vm_price ≤ q) ∧
        e.max_vm_price ∈ vmPricesOf vms p ∧
        (∀ q ∈ vmPricesOf vms p, q ≤ e.max_vm_price) ∧
        e.avg_vm_price * (vmPricesOf vms p).length = (vmPricesOf vms p).sum ∧
        e.regions.Nodup ∧
        (∀ r : Region, r ∈ e.regions ↔
          ∃ v ∈ vms, v.provider_name = p ∧ v.region = r)) ∧
    ((getProviderStats specExampleOffers []).map
        (fun e => (e.provider, e.vm_count, e.min_vm_price, e.max_vm_price,
          e.avg_vm_price)) =
      [(Provider.AWS, 2, 1/10, 3/10, 1/5),
       (Provider.AZURE, 1, 1/5, 1/5, 1/5)]) := by
  constructor
  · intro vms storage p hp
    have hne : vmPricesOf vms p ≠ [] := vmPricesOf_ne_nil hp
    cases hmin : listMin? (vmPricesOf vms p) with
    | none => exact absurd (listMin?_eq_none_iff.mp hmin) hne
    | some m =>
    cases hmax : listMax? (vmPricesOf vms p) with
    | none => exact absurd (listMax?_eq_none_iff.mp hmax) hne
    | some M =>
    have hminproj : (statFor vms storage p).min_vm_price = m := by
      show (listMin? (vmPricesOf vms p)).getD 0 = m
      rw [hmin]
      rfl
    have hmaxproj : (statFor vms storage p).max_vm_price = M := by
      show (listMax? (vmPricesOf vms p)).getD 0 = M
      rw [hmax]
      rfl
    have havgproj : (statFor vms storage p).avg_vm_price =
        (vmPricesOf vms p).sum / (vmPricesOf vms p).length := by
      show (listAvg? (vmPricesOf vms p)).getD 0 = _
      unfold listAvg?
      rw [if_neg hne]
      rfl
    refine ⟨statFor vms storage p, mem_getProviderStats.mpr ⟨p, hp, rfl⟩, rfl,
      (List.length_map _ _).symm, ?_, ?_, ?_, ?_, ?_, ?_, ?_⟩
    · rw [hminproj]
      exact listMin?_mem hmin
    · rw [hminproj]
      exact listMin?_le hmin
    · rw [hmaxproj]
      exact listMax?_mem hmax
    · rw [hmaxproj]
      exact listMax?_ge hmax
    · rw [havgproj]
      have hlen : ((vmPricesOf vms p).length : ℚ) ≠ 0 :=
        Nat.cast_ne_zero.mpr (fun h => hne (List.length_eq_zero.mp h))
      exact div_mul_cancel₀ _ hlen
    · show ((((regionGroupBy vms).filter
          (fun r => decide (r.1 = p))).map (·.2)).Nodup)
      refine List.Nodup.map_on ?_ (List.Nodup.filter _ (List.nodup_dedup _))
      intro x hx y hy hxy
      have hx1 : x.1 = p := by
        simpa using (List.mem_filter.mp hx).2
      have hy1 : y.1 = p := by
        simpa using (List.mem_filter.mp hy).2
      exact Prod.ext (hx1.trans hy1.symm) hxy
    · intro r
      show r ∈ ((regionGroupBy vms).filter
          (fun x => decide (x.1 = p))).map (·.2) ↔ _
      simp only [List.mem_map, List.mem_filter, decide_eq_true_eq,
        regionGroupBy, List.mem_dedup]
      constructor
      · rintro ⟨x, ⟨⟨v, hv, hvx⟩, hx1⟩, hx2⟩
        refine ⟨v, hv, ?_, ?_⟩
        · rw [← hx1, ← hvx]
        · rw [← hx2, ← hvx]
      · rintro ⟨v, hv, hvp, hvr⟩
        exact ⟨(p, r), ⟨⟨v, hv, by rw [hvp, hvr]⟩, rfl⟩, rfl⟩
  · have h0 : providersOf specExampleOffers =
        [Provider.AWS, Provider.AZURE] := by decide
    have hA : vmPricesOf specExampleOffers Provider.AWS = [1/10, 3/10] := rfl
    have hZ : vmPricesOf specExampleOffers Provider.AZURE = [1/5] := rfl
    have hcA : (specExampleOffers.filter
        (fun v => decide (v.provider_name = Provider.AWS))).length = 2 := rfl
    have hcZ : (specExampleOffers.filter
        (fun v => decide (v.provider_name = Provider.AZURE))).length = 1 := rfl
    rw [getProviderStats_eq, h0]
    simp only [List.map_cons, List.map_nil]
    norm_num [statFor, hA, hZ, hcA, hcZ, listMin?, listMax?, listAvg?,
      storageGroupBy, storageProvidersOf, min_def, max_def, mkVM]
    rfl

/-- C1 witness: the general statement applied to the spec's worked example at
provider AWS. -/
theorem c1_witness :
    ∃ e ∈ getProviderStats specExampleOffers [],
      e.provider = Provider.AWS ∧
      e.vm_count = (vmPricesOf specExampleOffers Provider.AWS).length ∧
      e.min_vm_price ∈ vmPricesOf specExampleOffers Provider.AWS ∧
      (∀ q ∈ vmPricesOf specExampleOffers Provider.AWS, e.min_vm_price ≤ q) ∧
      e.max_vm_price ∈ vmPricesOf specExampleOffers Provider.AWS ∧
      (∀ q ∈ vmPricesOf specExampleOffers Provider.AWS, q ≤ e.max_vm_price) ∧
      e.avg_vm_price * (vmPricesOf specExampleOffers Provider.AWS).length =
        (vmPricesOf specExampleOffers Provider.AWS).sum ∧
      e.regions.Nodup ∧
      (∀ r : Region, r ∈ e.regions ↔
        ∃ v ∈ specExampleOffers,
          v.provider_name = Provider.AWS ∧ v.region = r) :=
  c1_provider_stats_correct.1 specExampleOffers [] Provider.AWS (by decide)

/-- C7: the matrix's best-value selection always returns an input offer whose
price is minimal and whose name is lexically least among the offers tied at
that minimal price — in particular ties on the lowest price are resolved by
the name order, identically on every run (the selection is a function of the
input). -/
theorem c7_tie_broken_by_name (vmData : List VMComparisonData)
    (hne : vmData ≠ []) :
    ∃ w, findBestValueLowestCost vmData = some w ∧ w ∈ vmData ∧
      (∀ v ∈ vmData, w.price_per_hour_usd ≤ v.price_per_hour_usd) ∧
      (∀ v ∈ vmData, v.price_per_hour_usd = w.price_per_hour_usd →
        w.vm_name ≤ v.vm_name) := by
  rcases findBestValueLowestCost_spec hne with ⟨w, hw, hwmem, hwle⟩
  refine ⟨w, hw, hwmem, ?_, ?_⟩
  · intro v hv
    rcases hwle v hv with h | ⟨he, _⟩
    · exact le_of_lt h
    · exact le_of_eq he
  · intro v hv heq
    rcases hwle v hv with h | ⟨_, hn⟩
    · exact absurd heq.symm (ne_of_lt h)
    · exact hn

/-- C7 witness: on two offers tied at the lowest price 0.10 with names
`beta` and `alpha`, the winner is the lexically least, `alpha`. -/
theorem c7_witness :
    (∃ w, findBestValueLowestCost tieOffers = some w ∧ w ∈ tieOffers ∧
      (∀ v ∈ tieOffers, w.price_per_hour_usd ≤ v.price_per_hour_usd) ∧
      (∀ v ∈ tieOffers, v.price_per_hour_usd = w.price_per_hour_usd →
        w.vm_name ≤ v.vm_name)) ∧
    (findBestValueLowestCost tieOffers).map (·.vm_name) = some "alpha" := by
  constructor
  · exact c7_tie_broken_by_name tieOffers (by simp [tieOffers])
  · have h1 : ¬ ("beta" ≤ "alpha") := by
      rw [String.le_iff_toList_le]
      decide
    norm_num [findBestValueLowestCost, tieOffers, toVMComparisonData, mkVM,
      List.insertionSort, List.orderedInsert, matrixLe, h1]

/-- C4: aggregation is order-independent — permuting the VM and storage row
collections changes none of the per-provider stats values (count, min, max,
average, storage count, storage average) and none of the per-region rollup
values (count, min, max, average) of the regional comparison. -/
theorem c4_aggregation_order_independent
    (vms vms' : List OnDemandVMPricing) (storage storage' : List StoragePricing)
    (hv : vms.Perm vms') (hs : storage.Perm storage')
    (p : Provider) (r : Region) :
    (statFor vms storage p).vm_count = (statFor vms' storage' p).vm_count ∧
    (statFor vms storage p).min_vm_price =
      (statFor vms' storage' p).min_vm_price ∧
    (statFor vms storage p).max_vm_price =
      (statFor vms' storage' p).max_vm_price ∧
    (statFor vms storage p).avg_vm_price =
      (statFor vms' storage' p).avg_vm_price ∧
    (statFor vms storage p).storage_services =
      (statFor vms' storage' p).storage_services ∧
    (statFor vms storage p).avg_storage_price =
      (statFor vms' storage' p).avg_storage_price ∧
    regionVMCount (vms.map toVMComparisonData) r =
      regionVMCount (vms'.map toVMComparisonData) r ∧
    regionMinPrice (vms.map toVMComparisonData) r =
      regionMinPrice (vms'.map toVMComparisonData) r ∧
    regionMaxPrice (vms.map toVMComparisonData) r =
      regionMaxPrice (vms'.map toVMComparisonData) r ∧
    regionAvgPrice (vms.map toVMComparisonData) r =
      regionAvgPrice (vms'.map toVMComparisonData) r := by
  have hvp : (vmPricesOf vms p).Perm (vmPricesOf vms' p) :=
    (hv.filter _).map _
  have hsf : (storage.filter (fun s => decide (s.provider_name = p))).Perm
      (storage'.filter (fun s => decide (s.provider_name = p))) :=
    hs.filter _
  have hsp : (storageCapsOf storage p).Perm (storageCapsOf storage' p) :=
    hsf.filterMap _
  have hreg : (regionPricesOf (vms.map toVMComparisonData) r).Perm
      (regionPricesOf (vms'.map toVMComparisonData) r) :=
    ((hv.map toVMComparisonData).filter _).map _
  refine ⟨(hv.filter _).length_eq, ?_, ?_, ?_, ?_, ?_,
    hreg.length_eq, ?_, ?_, ?_⟩
  · show (listMin? (vmPricesOf vms p)).getD 0 = _
    rw [listMin?_perm hvp]
    rfl
  · show (listMax? (vmPricesOf vms p)).getD 0 = _
    rw [listMax?_perm hvp]
    rfl
  · show (listAvg? (vmPricesOf vms p)).getD 0 = _
    rw [listAvg?_perm hvp]
    rfl
  · -- storage service count
    by_cases hmem : p ∈ storageProvidersOf storage
    · have hmem' : p ∈ storageProvidersOf storage' := by
        rcases List.mem_dedup.mp hmem with hmm
        exact List.mem_dedup.mpr ((hs.map _).mem_iff.mp hmm)
      show ((((storageGroupBy storage).find?
            (fun s => decide (s.provider_name = p))).map (·.count_service)).getD 0) =
        ((((storageGroupBy storage').find?
            (fun s => decide (s.provider_name = p))).map (·.count_service)).getD 0)
      rw [storageGroupBy_find?_of_mem hmem, storageGroupBy_find?_of_mem hmem']
      simpa using hsf.length_eq
    · have hmem' : p ∉ storageProvidersOf storage' := by
        intro hc
        exact hmem (List.mem_dedup.mpr ((hs.map _).mem_iff.mpr
          (List.mem_dedup.mp hc)))
      show ((((storageGroupBy storage).find?
            (fun s => decide (s.provider_name = p))).map (·.count_service)).getD 0) =
        ((((storageGroupBy storage').find?
            (fun s => decide (s.provider_name = p))).map (·.count_service)).getD 0)
      rw [storageGroupBy_find?_of_not_mem hmem,
        storageGroupBy_find?_of_not_mem hmem']
  · -- storage average
    by_cases hmem : p ∈ storageProvidersOf storage
    · have hmem' : p ∈ storageProvidersOf storage' := by
        rcases List.mem_dedup.mp hmem with hmm
        exact List.mem_dedup.mpr ((hs.map _).mem_iff.mp hmm)
      show ((((storageGroupBy storage).find?
            (fun s => decide (s.provider_name = p))).bind (·.avg_capacity)).getD 0) =
        ((((storageGroupBy storage').find?
            (fun s => decide (s.provider_name = p))).bind (·.avg_capacity)).getD 0)
      rw [storageGroupBy_find?_of_mem hmem, storageGroupBy_find?_of_mem hmem']
      simp only [Option.some_bind]
      rw [listAvg?_perm hsp]
    · have hmem' : p ∉ storageProvidersOf storage' := by
        intro hc
        exact hmem (List.mem_dedup.mpr ((hs.map _).mem_iff.mpr
          (List.mem_dedup.mp hc)))
      show ((((storageGroupBy storage).find?
            (fun s => decide (s.provider_name = p))).bind (·.avg_capacity)).getD 0) =
        ((((storageGroupBy storage').find?
            (fun s => decide (s.provider_name = p))).bind (·.avg_capacity)).getD 0)
      rw [storageGroupBy_find?_of_not_mem hmem,
        storageGroupBy_find?_of_not_mem hmem']
  · exact hreg.foldl_eq maxSafeInteger
  · exact hreg.foldl_eq 0
  · unfold regionAvgPrice regionVMCount
    rw [hreg.sum_eq, hreg.length_eq]

/-- The spec's worked example with its first two offers transposed. -/
def specExampleSwapped : List OnDemandVMPricing :=
  [mkVM "aws-large" Provider.AWS (3/10) Region.europe,
   mkVM "aws-small" Provider.AWS (1/10) Region.north_america,
   mkVM "azure-mid" Provider.AZURE (1/5) Region.europe]

/-- C4 witness: the theorem applied to the spec example and its transposition
at provider AWS and region `north_america`. -/
theorem c4_witness :
    (statFor specExampleOffers [] Provider.AWS).vm_count =
      (statFor specExampleSwapped [] Provider.AWS).vm_count ∧
    (statFor specExampleOffers [] Provider.AWS).min_vm_price =
      (statFor specExampleSwapped [] Provider.AWS).min_vm_price ∧
    (statFor specExampleOffers [] Provider.AWS).max_vm_price =
      (statFor specExampleSwapped [] Provider.AWS).max_vm_price ∧
    (statFor specExampleOffers [] Provider.AWS).avg_vm_price =
      (statFor specExampleSwapped [] Provider.AWS).avg_vm_price ∧
    (statFor specExampleOffers [] Provider.AWS).storage_services =
      (statFor specExampleSwapped [] Provider.AWS).storage_services ∧
    (statFor specExampleOffers [] Provider.AWS).avg_storage_price =
      (statFor specExampleSwapped [] Provider.AWS).avg_storage_price ∧
    regionVMCount (specExampleOffers.map toVMComparisonData)
        Region.north_america =
      regionVMCount (specExampleSwapped.map toVMComparisonData)
        Region.north_america ∧
    regionMinPrice (specExampleOffers.map toVMComparisonData)
        Region.north_america =
      regionMinPrice (specExampleSwapped.map toVMComparisonData)
        Region.north_america ∧
    regionMaxPrice (specExampleOffers.map toVMComparisonData)
        Region.north_america =
      regionMaxPrice (specExampleSwapped.map toVMComparisonData)
        Region.north_america ∧
    regionAvgPrice (specExampleOffers.map toVMComparisonData)
        Region.north_america =
      regionAvgPrice (specExampleSwapped.map toVMComparisonData)
        Region.north_america :=
  c4_aggregation_order_independent specExampleOffers specExampleSwapped [] []
    (List.Perm.swap _ _ _) (List.Perm.refl []) Provider.AWS
    Region.north_america

/-- C8: every offer produced by the (spec-modelled) normalizer satisfies the
data-model invariant — non-negative price and GPU fields zero/absent together
— and the aggregation layer preserves it: every comparison row it emits keeps
a non-negative price, and every stats entry's min/avg/max prices are
non-negative whenever the input offers satisfy the invariant. -/
theorem c8_invariant_established_and_preserved :
    (∀ (row : RawComputeRow) (o : OnDemandVMPricing),
      normalizeComputeRow row = Except.ok o → computeInvariant o) ∧
    (∀ (vms : List OnDemandVMPricing), (∀ v ∈ vms, computeInvariant v) →
      ∀ (providers : Option (List Provider)) (regions : Option (List Region))
        (limit : Nat), ∀ d ∈ getVMComparison vms providers regions limit,
          0 ≤ d.price_per_hour_usd) ∧
    (∀ (vms : List OnDemandVMPricing) (storage : List StoragePricing),
      (∀ v ∈ vms, computeInvariant v) →
      ∀ e ∈ getProviderStats vms storage,
        0 ≤ e.min_vm_price ∧ 0 ≤ e.avg_vm_price ∧ 0 ≤ e.max_vm_price) := by
  refine ⟨?_, ?_, ?_⟩
  · intro row o h
    unfold normalizeComputeRow at h
    split at h
    · exact Except.noConfusion h
    split at h
    · exact Except.noConfusion h
    split at h
    · exact Except.noConfusion h
    split_ifs at h with h1 h2 h3 h4 h5
    injection h with h'
    rw [← h']
    constructor
    · exact not_lt.mp h3
    · have h0 : row.gpu_count.toNat = 0 ↔ row.gpu_count = 0 := by omega
      exact h0.trans h5
  · intro vms hinv providers regions limit d hd
    unfold getVMComparison at hd
    rcases List.mem_map.mp hd with ⟨v, hv, hvd⟩
    have hv₁ := List.take_subset _ _ hv
    have hv₂ : v ∈ vms :=
      List.mem_of_mem_filter
        ((List.perm_insertionSort vmPriceLe _).mem_iff.mp hv₁)
    have hdp : d.price_per_hour_usd = v.price_per_hour_usd := by
      rw [← hvd]
      rfl
    rw [hdp]
    exact (hinv v hv₂).1
  · intro vms storage hinv e he
    rcases mem_getProviderStats.mp he with ⟨p, hp, hst⟩
    have hpos : ∀ q ∈ vmPricesOf vms p, 0 ≤ q := by
      intro q hq
      rcases mem_vmPricesOf.mp hq with ⟨v, hv, _, hvq⟩
      exact hvq ▸ (hinv v hv).1
    subst hst
    refine ⟨?_, ?_, ?_⟩
    · show 0 ≤ (listMin? (vmPricesOf vms p)).getD 0
      cases hmin : listMin? (vmPricesOf vms p) with
      | none => exact le_refl 0
      | some m => exact hpos m (listMin?_mem hmin)
    · show 0 ≤ (listAvg? (vmPricesOf vms p)).getD 0
      unfold listAvg?
      by_cases hnil : vmPricesOf vms p = []
      · rw [if_pos hnil]; exact le_refl 0
      · rw [if_neg hnil]
        exact div_nonneg (List.sum_nonneg hpos) (Nat.cast_nonneg _)
    · show 0 ≤ (listMax? (vmPricesOf vms p)).getD 0
      cases hmax : listMax? (vmPricesOf vms p) with
      | none => exact le_refl 0
      | some M => exact hpos M (listMax?_mem hmax)

/-- C8 witness: the normalizer's output on a concrete valid raw row satisfies
the invariant, and the stats entry over a concrete invariant-satisfying
snapshot reports non-negative prices. -/
theorem c8_witness :
    computeInvariant normalizedExample ∧
    (0 ≤ (statFor vmsOnlyAWS [] Provider.AWS).min_vm_price ∧
     0 ≤ (statFor vmsOnlyAWS [] Provider.AWS).avg_vm_price ∧
     0 ≤ (statFor vmsOnlyAWS [] Provider.AWS).max_vm_price) :=
  ⟨c8_invariant_established_and_preserved.1 rawComputeExample
    normalizedExample rfl,
   c8_invariant_established_and_preserved.2.2 vmsOnlyAWS []
    (by
      rintro v hv
      rcases List.mem_singleton.mp hv with rfl
      constructor
      · norm_num [mkVM]
      · simp [mkVM])
    (statFor vmsOnlyAWS [] Provider.AWS)
    (mem_getProviderStats.mpr ⟨Provider.AWS, by decide, rfl⟩)⟩

/-- The `min_vm_price` a stats entry carries for a present provider is a
member of, and a lower bound of, that provider's price list. -/
theorem statFor_min_spec (vms : List OnDemandVMPricing)
    (storage : List StoragePricing) (p : Provider) (hp : p ∈ providersOf vms) :
    (statFor vms storage p).min_vm_price ∈ vmPricesOf vms p ∧
    ∀ y ∈ vmPricesOf vms p, (statFor vms storage p).min_vm_price ≤ y := by
  have hne := vmPricesOf_ne_nil hp
  cases hm : listMin? (vmPricesOf vms p) with
  | none => exact absurd (listMin?_eq_none_iff.mp hm) hne
  | some mq =>
    have hproj : (statFor vms storage p).min_vm_price = mq := by
      show (listMin? (vmPricesOf vms p)).getD 0 = mq
      rw [hm]
      rfl
    rw [hproj]
    exact ⟨listMin?_mem hm, listMin?_le hm⟩

/-- C3 counterexample: on the collection `divergenceOffers` (AWS offers at
$0.10 and $0.90, AZURE offers at $0.20 and $0.20) the best-value matrix's
lowest-cost winner and the comparison overview's best provider are both AWS,
but the main cost-comparison card's best provider is AZURE — the three
independent "lowest cost" call sites do not all agree. -/
theorem c3_counterexample :
    (findBestValueLowestCost (divergenceOffers.map toVMComparisonData)).map
        (·.provider) = some Provider.AWS ∧
    (overviewBestProvider (getProviderStats divergenceOffers [])).map
        (·.provider) = some Provider.AWS ∧
    (mainCardBestProvider (getProviderStats divergenceOffers [])).map
        (·.provider) = some Provider.AZURE := by
  have h0 : providersOf divergenceOffers = [Provider.AWS, Provider.AZURE] := by
    decide
  have hstats : getProviderStats divergenceOffers [] =
      [statFor divergenceOffers [] Provider.AWS,
       statFor divergenceOffers [] Provider.AZURE] := by
    rw [getProviderStats_eq, h0]
    rfl
  have hminA : (statFor divergenceOffers [] Provider.AWS).min_vm_price =
      1/10 := by
    show min ((1:ℚ)/10) (9/10) = 1/10
    norm_num [min_def]
  have hminZ : (statFor divergenceOffers [] Provider.AZURE).min_vm_price =
      1/5 := by
    show min ((1:ℚ)/5) (1/5) = 1/5
    norm_num [min_def]
  have havgA : (statFor divergenceOffers [] Provider.AWS).avg_vm_price =
      1/2 := by
    show ((1:ℚ)/10 + (9/10 + 0)) / 2 = 1/2
    norm_num
  have havgZ : (statFor divergenceOffers [] Provider.AZURE).avg_vm_price =
      1/5 := by
    show ((1:ℚ)/5 + (1/5 + 0)) / 2 = 1/5
    norm_num
  refine ⟨?_, ?_, ?_⟩
  · -- best-value matrix: offer "a" (AWS, $0.10) wins
    have hcd : ("c" : String) ≤ "d" := by
      rw [String.le_iff_toList_le]
      decide
    norm_num [findBestValueLowestCost, divergenceOffers, toVMComparisonData,
      mkVM, List.insertionSort, List.orderedInsert, matrixLe, hcd]
  · -- comparison overview: provider of the lowest minimum price (AWS)
    have hle : overviewLe (statFor divergenceOffers [] Provider.AWS)
        (statFor divergenceOffers [] Provider.AZURE) := by
      show providerName Provider.AWS ≤ providerName Provider.AZURE
      rw [providerName, providerName, String.le_iff_toList_le]
      decide
    unfold overviewBestProvider
    rw [hstats]
    rw [show List.insertionSort overviewLe
        [statFor divergenceOffers [] Provider.AWS,
         statFor divergenceOffers [] Provider.AZURE] =
      [statFor divergenceOffers [] Provider.AWS,
       statFor divergenceOffers [] Provider.AZURE] from by
        simp [List.insertionSort, List.orderedInsert, if_pos hle]]
    have hbest : (listMin?
        ([statFor divergenceOffers [] Provider.AWS,
          statFor divergenceOffers [] Provider.AZURE].map
            (·.min_vm_price))).getD 0 = 1/10 := by
      simp only [List.map_cons, List.map_nil, hminA, hminZ]
      show min ((1:ℚ)/10) (1/5) = 1/10
      norm_num [min_def]
    simp only [List.isEmpty_cons, if_neg]
    rw [hbest]
    rw [List.find?_cons_of_pos _ (by simp [hminA])]
    rfl
  · -- main cost comparison card: provider of the lowest average price (AZURE)
    unfold mainCardBestProvider
    rw [hstats]
    have hbest : (listMin?
        ([statFor divergenceOffers [] Provider.AWS,
          statFor divergenceOffers [] Provider.AZURE].map
            (·.avg_vm_price))).getD 0 = 1/5 := by
      simp only [List.map_cons, List.map_nil, havgA, havgZ]
      show min ((1:ℚ)/2) (1/5) = 1/5
      norm_num [min_def]
    rw [hbest]
    rw [List.find?_cons_of_neg _ (by
      simp only [decide_eq_true_eq, havgA]
      norm_num)]
    rw [List.find?_cons_of_pos _ (by simp [havgZ])]
    rfl

/-- C3 amended: the two call sites that select by minimum hourly price — the
best-value matrix's lowest-cost category and the comparison overview's best
provider — agree on every input whose global minimum price is attained by a
single provider, both electing that provider; the main cost-comparison card
instead selects by minimum average price and can elect a different provider
(see the counterexample). -/
theorem c3_min_price_sites_agree (vms : List OnDemandVMPricing)
    (storage : List StoragePricing) (P : Provider) (hne : vms ≠ [])
    (huniq : ∀ v ∈ vms, v.price_per_hour_usd = globalMinPrice vms →
      v.provider_name = P) :
    (findBestValueLowestCost (vms.map toVMComparisonData)).map (·.provider) =
      some P ∧
    (overviewBestProvider (getProviderStats vms storage)).map (·.provider) =
      some P := by
  have hpne : vms.map (·.price_per_hour_usd) ≠ [] := by
    intro hc
    exact hne (List.map_eq_nil_iff.mp hc)
  cases hm : listMin? (vms.map (·.price_per_hour_usd)) with
  | none => exact absurd (listMin?_eq_none_iff.mp hm) hpne
  | some m =>
  have hgm : globalMinPrice vms = m := by
    unfold globalMinPrice
    rw [hm]
    rfl
  have hm_mem := listMin?_mem hm
  have hm_le := listMin?_le hm
  constructor
  · -- the best-value matrix elects an offer of provider P
    have hvne : vms.map toVMComparisonData ≠ [] := by
      intro hc
      exact hne (List.map_eq_nil_iff.mp hc)
    rcases findBestValueLowestCost_spec hvne with ⟨w, hw, hwmem, hwle⟩
    rcases List.mem_map.mp hwmem with ⟨v0, hv0, hv0w⟩
    have hwp : w.price_per_hour_usd = v0.price_per_hour_usd := by
      rw [← hv0w]
      rfl
    have hwle' : ∀ q ∈ vms.map (·.price_per_hour_usd),
        w.price_per_hour_usd ≤ q := by
      intro q hq
      rcases List.mem_map.mp hq with ⟨u, hu, huq⟩
      have huq' : (toVMComparisonData u).price_per_hour_usd = q := by
        rw [← huq]
        rfl
      rcases hwle (toVMComparisonData u) (List.mem_map.mpr ⟨u, hu, rfl⟩)
        with hlt | ⟨heq, _⟩
      · exact huq' ▸ le_of_lt hlt
      · exact huq' ▸ le_of_eq heq
    have hwmem' : w.price_per_hour_usd ∈ vms.map (·.price_per_hour_usd) :=
      hwp ▸ List.mem_map.mpr ⟨v0, hv0, rfl⟩
    have hwm : w.price_per_hour_usd = m :=
      le_antisymm (hwle' m hm_mem) (hm_le _ hwmem')
    have hv0P : v0.provider_name = P :=
      huniq v0 hv0 (by rw [hgm, ← hwp, hwm])
    rw [hw, Option.map_some', ← hv0w]
    show some v0.provider_name = some P
    rw [hv0P]
  · -- the comparison overview elects provider P
    rcases List.mem_map.mp hm_mem with ⟨vm0, hvm0, hvm0p⟩
    have hp0mem : vm0.provider_name ∈ providersOf vms :=
      mem_providersOf.mpr ⟨vm0, hvm0, rfl⟩
    have hm_in_g : m ∈ vmPricesOf vms vm0.provider_name :=
      mem_vmPricesOf.mpr ⟨vm0, hvm0, rfl, hvm0p⟩
    have hg_min : listMin? (vmPricesOf vms vm0.provider_name) = some m :=
      listMin?_eq_some_of hm_in_g
        (fun y hy => hm_le y (vmPricesOf_subset_prices hy))
    have hstatp0 : (statFor vms storage vm0.provider_name).min_vm_price = m := by
      show (listMin? (vmPricesOf vms vm0.provider_name)).getD 0 = m
      rw [hg_min]
      rfl
    have hstatp0mem : statFor vms storage vm0.provider_name ∈
        getProviderStats vms storage :=
      mem_getProviderStats.mpr ⟨vm0.provider_name, hp0mem, rfl⟩
    have hcolA : listMin?
        ((getProviderStats vms storage).map (·.min_vm_price)) = some m := by
      apply listMin?_eq_some_of
      · exact List.mem_map.mpr ⟨_, hstatp0mem, hstatp0⟩
      · intro x hx
        rcases List.mem_map.mp hx with ⟨e, he, hex⟩
        rcases mem_getProviderStats.mp he with ⟨q, hq, hqe⟩
        have hspec := (statFor_min_spec vms storage q hq).1
        rw [hqe] at hspec
        rw [← hex]
        exact hm_le _ (vmPricesOf_subset_prices hspec)
    have hperm := List.perm_insertionSort overviewLe
      (getProviderStats vms storage)
    have hcolA' : listMin?
        ((List.insertionSort overviewLe (getProviderStats vms storage)).map
          (·.min_vm_price)) = some m := by
      rw [listMin?_perm (hperm.map _)]
      exact hcolA
    have hsne : List.insertionSort overviewLe (getProviderStats vms storage)
        ≠ [] := by
      intro hc
      rw [hc] at hperm
      have hnil := hperm.symm.eq_nil
      rw [hnil] at hstatp0mem
      simp at hstatp0mem
    have hempty : (List.insertionSort overviewLe
        (getProviderStats vms storage)).isEmpty = false :=
      List.isEmpty_eq_false.mpr hsne
    have hbp : (if (List.insertionSort overviewLe
          (getProviderStats vms storage)).isEmpty then (0 : ℚ)
        else (listMin? ((List.insertionSort overviewLe
          (getProviderStats vms storage)).map (·.min_vm_price))).getD 0) =
        m := by
      rw [hempty, hcolA']
      rfl
    show (((List.insertionSort overviewLe
        (getProviderStats vms storage)).find?
          (fun p => decide (p.min_vm_price =
            (if (List.insertionSort overviewLe
                (getProviderStats vms storage)).isEmpty then (0 : ℚ)
              else (listMin? ((List.insertionSort overviewLe
                (getProviderStats vms storage)).map
                  (·.min_vm_price))).getD 0)))).map (·.provider)) = some P
    rw [hbp]
    cases hfind : (List.insertionSort overviewLe
        (getProviderStats vms storage)).find?
          (fun p => decide (p.min_vm_price = m)) with
    | none =>
      have hall := List.find?_eq_none.mp hfind
      have habs := hall (statFor vms storage vm0.provider_name)
        (hperm.mem_iff.mpr hstatp0mem)
      rw [hstatp0] at habs
      simp at habs
    | some e =>
      have hpe : e.min_vm_price = m := by
        simpa using List.find?_some hfind
      have hemem : e ∈ getProviderStats vms storage :=
        hperm.mem_iff.mp (List.mem_of_find?_eq_some hfind)
      rcases mem_getProviderStats.mp hemem with ⟨q, hq, hqe⟩
      have hqmin : (statFor vms storage q).min_vm_price = m := by
        rw [hqe]
        exact hpe
      have hq_in : m ∈ vmPricesOf vms q := by
        have hs := (statFor_min_spec vms storage q hq).1
        rw [hqmin] at hs
        exact hs
      rcases mem_vmPricesOf.mp hq_in with ⟨v2, hv2, hv2q, hv2m⟩
      have hv2P : v2.provider_name = P :=
        huniq v2 hv2 (by rw [hgm, hv2m])
      have hqP : q = P := by
        rw [← hv2q, hv2P]
      rw [Option.map_some', ← hqe]
      show some q = some P
      rw [hqP]

/-- C3 witness: on the counterexample collection the global minimum price
$0.10 is attained only by AWS, so the matrix and the overview both elect
AWS. -/
theorem c3_witness :
    (findBestValueLowestCost (divergenceOffers.map toVMComparisonData)).map
        (·.provider) = some Provider.AWS ∧
    (overviewBestProvider (getProviderStats divergenceOffers [])).map
        (·.provider) = some Provider.AWS := by
  have hg : globalMinPrice divergenceOffers = 1/10 := by
    show (listMin? [((1:ℚ))/10, 9/10, 1/5, 1/5]).getD 0 = 1/10
    show min ((1:ℚ)/10) (min (9/10) (min (1/5) (1/5))) = 1/10
    norm_num [min_def]
  exact c3_min_price_sites_agree divergenceOffers [] Provider.AWS
    (by simp [divergenceOffers])
    (by
      intro v hv hveq
      rw [hg] at hveq
      simp only [divergenceOffers, List.mem_cons, List.not_mem_nil,
        or_false] at hv
      rcases hv with rfl | rfl | rfl | rfl
      · rfl
      · exact absurd hveq (by norm_num [mkVM])
      · exact absurd hveq (by norm_num [mkVM])
      · exact absurd hveq (by norm_num [mkVM]))

end CostExplorer
